import Mathlib

/-!
Verification of the access-dialog arbiter in `src/access.rs` of
`xdg-desktop-portal-cosmic`.

The file shallowly embeds the state and the three update entry points of the
module:

* `access_dialog` (lines 60–111): builds the per-request `choice_labels` and
  `active_choices` from the submitted options and, once the reply channel
  yields, returns the received response or `Cancelled` when the channel was
  closed without a response.
* `update_msg` (lines 242–277): handles the UI messages `Allow`, `Cancel`
  and `Choice(i, j)` against the portal's `access_args` slot.
* `update_args` (lines 278–298): installs a newly submitted request,
  resolving any previously current request with `Cancelled`.

Rust's `HashMap<String, String>` is embedded as an association list without
duplicate keys on which `insert` replaces in place; `tokio` one-shot style
reply channels are embedded as natural-number sink identifiers, and each
attempted send on a sink is recorded in an explicit effect list.  A panic
(`Option::unwrap` on `None`) is embedded as `none` in an `Option` result.
-/

/-- Model of Rust's `HashMap<String, String>`: an association list that is
kept free of duplicate keys by `hmInsert`. -/
abbrev HMap := List (String × String)

/-- Lookup in the association-list map (first matching key). -/
def hmGet (m : HMap) (k : String) : Option String :=
  match m with
  | [] => none
  | (k', v) :: m' => if k' = k then some v else hmGet m' k

/-- `HashMap::insert`: replace the value of an existing key in place,
otherwise append the new binding. -/
def hmInsert (m : HMap) (k v : String) : HMap :=
  match m with
  | [] => [(k, v)]
  | (k', v') :: m' => if k' = k then (k, v) :: m' else (k', v') :: hmInsert m' k v

/-- The key set of the map. -/
def hmKeys (m : HMap) : List String := m.map Prod.fst

/-- `HashMap::from_iter` / `collect`: later bindings overwrite earlier ones. -/
def hmOfList (l : List (String × String)) : HMap :=
  l.foldl (fun m p => hmInsert m p.1 p.2) []

/-- One entry of `AccessDialogOptions::choices` (`access.rs` line 35):
`(ID returned with the response, label, choices (ID, label), initial
selection or "" meaning the portal should choose)`. -/
structure ChoiceGroup where
  id : String
  label : String
  options : List (String × String)
  initial : String
deriving DecidableEq

/-- `AccessDialogOptions` (`access.rs` lines 26–36). -/
structure AccessDialogOptions where
  modal : Option Bool
  deny_label : Option String
  grant_label : Option String
  icon : Option String
  choices : Option (List ChoiceGroup)
deriving DecidableEq

/-- `PortalResponse`.  Modelled from the spec: the type itself lives in the
crate root, outside `src/access.rs`; per the spec the outbound resolution
value is one of `Approved{selections}` (`Success`), `Cancelled`, or an error
indicating no-response-available (`Other`). -/
inductive PortalResponse (R : Type) where
  | Success (r : R)
  | Cancelled
  | Other
deriving DecidableEq

/-- `AccessDialogResult` (`access.rs` lines 40–44). -/
structure AccessDialogResult where
  choices : List (String × String)
deriving DecidableEq

/-- An attempted send of a response on a reply sink, identified by the
sink's identifier. -/
abbrev SinkSend := Nat × PortalResponse AccessDialogResult

/-- `AccessDialogArgs` (`access.rs` lines 121–133).  The reply sender `tx`
is embedded as a sink identifier. -/
structure AccessDialogArgs where
  handle : String
  app_id : String
  parent_window : String
  title : String
  subtitle : String
  body : String
  options : AccessDialogOptions
  active_choices : HMap
  choice_labels : List (List String)
  tx : Nat
deriving DecidableEq

/-- The slice of `CosmicPortal` state that `access.rs` reads and writes:
the `access_args` slot. -/
structure CosmicPortal where
  access_args : Option AccessDialogArgs
deriving DecidableEq

/-- `Msg` (`access.rs` lines 114–119). -/
inductive Msg where
  | Allow
  | Cancel
  | Choice (i : Nat) (j : Nat)
deriving DecidableEq

/-- `choice_labels` construction in `access_dialog` (lines 75–80): for each
choice group, the list of its option labels. -/
def choice_labels_of (choices : Option (List ChoiceGroup)) : List (List String) :=
  (choices.getD []).map (fun c => c.options.map Prod.snd)

/-- `active_choices` construction in `access_dialog` (lines 81–87): each
group's `(id, initial)` pair, keeping only non-empty initial selections,
collected into a map. -/
def active_choices_of (choices : Option (List ChoiceGroup)) : HMap :=
  hmOfList (((choices.getD []).map (fun c => (c.id, c.initial))).filter
    (fun p => p.2 ≠ ""))

/-- The `AccessDialogArgs` value built by `access_dialog` (lines 88–101)
for a submitted request. -/
def mkAccessDialogArgs (handle app_id parent_window title subtitle body : String)
    (options : AccessDialogOptions) (tx : Nat) : AccessDialogArgs :=
  { handle := handle
    app_id := app_id
    parent_window := parent_window
    title := title
    subtitle := subtitle
    body := body
    options := options
    active_choices := active_choices_of options.choices
    choice_labels := choice_labels_of options.choices
    tx := tx }

/-- The tail of `access_dialog` (lines 106–110): the value returned to the
D-Bus caller given what `rx.recv().await` produced (`none` when the reply
channel was closed without a response having been sent). -/
def access_dialog_reply (received : Option (PortalResponse AccessDialogResult)) :
    PortalResponse AccessDialogResult :=
  match received with
  | some res => res
  | none => PortalResponse.Cancelled

/-- `update_msg` (`access.rs` lines 242–277).  Returns `none` when the Rust
code panics (`unwrap` of an empty `access_args` slot); otherwise the new
portal state together with the sends attempted on reply sinks.  The surface
commands it returns in Rust carry no arbiter state and are not embedded. -/
def update_msg (portal : CosmicPortal) (msg : Msg) :
    Option (CosmicPortal × List SinkSend) :=
  match msg with
  | Msg.Allow =>
    match portal.access_args with
    | none => none
    | some args =>
      some ({ access_args := none },
        [(args.tx, PortalResponse.Success ⟨args.active_choices⟩)])
  | Msg.Cancel =>
    match portal.access_args with
    | none => none
    | some args =>
      some ({ access_args := none }, [(args.tx, PortalResponse.Cancelled)])
  | Msg.Choice i j =>
    match portal.access_args with
    | none => none
    | some args =>
      match (args.options.choices.getD []).get? i with
      | none => some ({ access_args := some args }, [])
      | some choice =>
        match choice.options.get? j with
        | none => some ({ access_args := some args }, [])
        | some opt =>
          let args' := { args with
            active_choices := hmInsert args.active_choices choice.id opt.1 }
          some ({ access_args := some args' }, [])

/-- `update_args` (`access.rs` lines 278–298): resolve any currently
installed request with `Cancelled`, then install the new request. -/
def update_args (portal : CosmicPortal) (msg : AccessDialogArgs) :
    CosmicPortal × List SinkSend :=
  match portal.access_args with
  | none => ({ access_args := some msg }, [])
  | some args => ({ access_args := some msg }, [(args.tx, PortalResponse.Cancelled)])

/-- The portal state with no current request (`access_args` is `None`). -/
def idlePortal : CosmicPortal := { access_args := none }

/-- Iterated submission: run `update_args` over a list of requests in order,
collecting the sink sends. -/
def runSubmits (portal : CosmicPortal) (reqs : List AccessDialogArgs) :
    CosmicPortal × List SinkSend :=
  match reqs with
  | [] => (portal, [])
  | a :: rest =>
    let pr := update_args portal a
    let pr' := runSubmits pr.1 rest
    (pr'.1, pr.2 ++ pr'.2)

/-- One event consumed by the arbiter's control loop: either a request
submission routed through `update_args`, or a UI message routed through
`update_msg`. -/
inductive Step where
  | submit (args : AccessDialogArgs)
  | ui (msg : Msg)
deriving DecidableEq

/-- Run the arbiter over a list of events.  `none` when some `update_msg`
call panics; otherwise the final portal state and the sink sends in order. -/
def runSteps (portal : CosmicPortal) (steps : List Step) :
    Option (CosmicPortal × List SinkSend) :=
  match steps with
  | [] => some (portal, [])
  | Step.submit a :: rest =>
    let pr := update_args portal a
    (runSteps pr.1 rest).map (fun x => (x.1, pr.2 ++ x.2))
  | Step.ui m :: rest =>
    match update_msg portal m with
    | none => none
    | some pr => (runSteps pr.1 rest).map (fun x => (x.1, pr.2 ++ x.2))

/-- Number of sends attempted on sink `t`. -/
def countSends (t : Nat) (sends : List SinkSend) : Nat :=
  (sends.filter (fun s => s.1 == t)).length

/-- Number of submissions in a list of events whose request carries sink `t`. -/
def submitCount (t : Nat) (steps : List Step) : Nat :=
  (steps.filter (fun st =>
    match st with
    | Step.submit a => a.tx == t
    | Step.ui _ => false)).length

/-- `1` when the currently installed request (if any) carries sink `t`. -/
def currentTxCount (t : Nat) (p : CosmicPortal) : Nat :=
  match p.access_args with
  | none => 0
  | some a => if a.tx = t then 1 else 0

/-- The `Msg::Choice(i, j)` branch of `update_msg` (lines 265–274), acting
directly on the request value. -/
def applyChoice (args : AccessDialogArgs) (i j : Nat) : AccessDialogArgs :=
  match (args.options.choices.getD []).get? i with
  | none => args
  | some choice =>
    match choice.options.get? j with
    | none => args
    | some opt =>
      { args with active_choices := hmInsert args.active_choices choice.id opt.1 }

/-- Fold a list of `(i, j)` choice selections over a request. -/
def applyChoices (args : AccessDialogArgs) (ms : List (Nat × Nat)) : AccessDialogArgs :=
  ms.foldl (fun a m => applyChoice a m.1 m.2) args

/-- The last `some` produced by `f` along a list, if any. -/
def lastHit {α : Type} (f : α → Option String) (l : List α) : Option String :=
  l.reverse.findSome? f

/-- The option id written for group id `g` by selection `(i, j)` against the
group list `gs`, when the indices are in range and group `i` has id `g`. -/
def selTarget (gs : List ChoiceGroup) (g : String) (m : Nat × Nat) : Option String :=
  match gs.get? m.1 with
  | none => none
  | some c => if c.id = g then (c.options.get? m.2).map Prod.fst else none

/-- The option id of the last selection in `ms` that effectively targets
group id `g` (in-range indices, matching group id), if any. -/
def lastSel (gs : List ChoiceGroup) (ms : List (Nat × Nat)) (g : String) : Option String :=
  lastHit (selTarget gs g) ms

/-- The last value bound to key `k` in an association list, if any. -/
def lastBind (l : List (String × String)) (k : String) : Option String :=
  lastHit (fun p => if p.1 = k then some p.2 else none) l

/-- The group ids of a request's choice set. -/
def choiceIds (args : AccessDialogArgs) : List String :=
  (args.options.choices.getD []).map ChoiceGroup.id

/-- The selection-state invariant: every key of `active_choices` is a group
id of the request's choice set. -/
def selInv (args : AccessDialogArgs) : Prop :=
  ∀ k ∈ hmKeys args.active_choices, k ∈ choiceIds args

/-- `selInv` holds of the currently installed request, if any. -/
def portalInv (p : CosmicPortal) : Prop :=
  ∀ args, p.access_args = some args → selInv args

/-- Outcome of one attempted reply-sink send, as seen by the runtime. -/
inductive SendFate where
  | delivered
  | receiverGone
deriving DecidableEq

/-- Whether a send reaches the receiver, given whether the receiving end of
the sink is still alive. -/
def attemptSend (alive : Bool) : SendFate :=
  if alive then SendFate.delivered else SendFate.receiverGone

/-- Pair each attempted send with its fate under the environment `alive`. -/
def fateSends (alive : Nat → Bool) (sends : List SinkSend) :
    List (SinkSend × SendFate) :=
  sends.map (fun s => (s, attemptSend (alive s.1)))

/-- The log records emitted by a reply-sink send on the resolution paths,
as a function of the send's fate.  In the source no resolution path logs
the send result: `update_args` explicitly discards it
(`let _ = args.tx.send(…).await`, lines 287–292) and `update_msg` drops the
detached task's result (lines 248–251 and 258–261); no logging call occurs
on these paths for any fate.  (The one logged send failure in the module,
line 104, concerns the inbound subscription channel, not a reply sink.) -/
def resolutionSendLog : SendFate → List String := fun _ => []

/-- `runSteps` in an environment that decides, per sink, whether the
receiving end is still alive.  The send results are recorded but — exactly
as in the source, where every send result is discarded (`let _ = … send` in
`update_args`, detached spawns in `update_msg`) — never consulted. -/
def runStepsEnv (alive : Nat → Bool) (portal : CosmicPortal) (steps : List Step) :
    Option (CosmicPortal × List (SinkSend × SendFate)) :=
  match steps with
  | [] => some (portal, [])
  | Step.submit a :: rest =>
    let pr := update_args portal a
    (runStepsEnv alive pr.1 rest).map (fun x => (x.1, fateSends alive pr.2 ++ x.2))
  | Step.ui m :: rest =>
    match update_msg portal m with
    | none => none
    | some pr =>
      (runStepsEnv alive pr.1 rest).map (fun x => (x.1, fateSends alive pr.2 ++ x.2))

/-! ### Sample requests used by concrete witnesses -/

/-- The spec's scenario choice group `("fmt", "Format", [("a","A"),("b","B")], "a")`. -/
def sampleGroup : ChoiceGroup :=
  { id := "fmt", label := "Format", options := [("a", "A"), ("b", "B")], initial := "a" }

/-- A choice group whose initial selection is empty ("no default"). -/
def sampleGroupNoDefault : ChoiceGroup :=
  { id := "color", label := "Color", options := [("r", "Red"), ("g", "Green")],
    initial := "" }

/-- Options carrying the scenario choice group. -/
def sampleOptions : AccessDialogOptions :=
  { modal := some false, deny_label := none, grant_label := none, icon := none,
    choices := some [sampleGroup] }

/-- Options carrying both sample groups. -/
def sampleOptionsMixed : AccessDialogOptions :=
  { modal := none, deny_label := none, grant_label := none, icon := none,
    choices := some [sampleGroup, sampleGroupNoDefault] }

/-- A request built by `access_dialog` from `sampleOptions`, sink 1. -/
def sampleRequest : AccessDialogArgs :=
  mkAccessDialogArgs "/req/1" "com.example.app" "" "Title" "Subtitle" "Body"
    sampleOptions 1

/-- A request with no choices at all, sink 2. -/
def sampleRequest2 : AccessDialogArgs :=
  mkAccessDialogArgs "/req/2" "org.example.app" "" "T2" "S2" "B2"
    { modal := none, deny_label := none, grant_label := none, icon := none,
      choices := none } 2

/-- A request built from `sampleOptionsMixed`, sink 3. -/
def sampleRequestMixed : AccessDialogArgs :=
  mkAccessDialogArgs "/req/3" "net.example.app" "" "T3" "S3" "B3"
    sampleOptionsMixed 3

/-- An event sequence: submit request 1, supersede it with request 2, allow. -/
def sampleSteps : List Step :=
  [Step.submit sampleRequest, Step.submit sampleRequest2, Step.ui Msg.Allow]

/-- The sends produced by `sampleSteps`. -/
def sampleSends : List SinkSend :=
  [(1, PortalResponse.Cancelled), (2, PortalResponse.Success ⟨[]⟩)]

/-! ### Association-list map lemmas -/

theorem hmGet_hmInsert (m : HMap) (k v g : String) :
    hmGet (hmInsert m k v) g = if k = g then some v else hmGet m g := by
  induction m with
  | nil => simp [hmInsert, hmGet]
  | cons p m' ih =>
    obtain ⟨k', v'⟩ := p
    by_cases h1 : k' = k
    · subst h1
      by_cases h2 : k' = g <;> simp [hmInsert, hmGet, h2]
    · by_cases h2 : k' = g
      · subst h2
        have hkg : ¬ k = k' := fun h => h1 h.symm
        simp [hmInsert, hmGet, h1, hkg]
      · simp [hmInsert, hmGet, h1, h2, ih]

theorem hmKeys_hmInsert (m : HMap) (k v : String) :
    ∀ g ∈ hmKeys (hmInsert m k v), g = k ∨ g ∈ hmKeys m := by
  induction m with
  | nil => simp [hmInsert, hmKeys]
  | cons p m' ih =>
    obtain ⟨k', v'⟩ := p
    intro g hg
    by_cases h1 : k' = k
    · subst h1
      simp [hmInsert, hmKeys] at hg
      rcases hg with h | h
      · exact Or.inl h
      · exact Or.inr (by simp [hmKeys, h])
    · simp [hmInsert, h1, hmKeys] at hg
      rcases hg with h | h
      · exact Or.inr (by simp [hmKeys, h])
      · rcases ih g (by simpa [hmKeys] using h) with h' | h'
        · exact Or.inl h'
        · exact Or.inr (by simp [hmKeys]; exact Or.inr (by simpa [hmKeys] using h'))

theorem findSome?_append_single {α : Type} (f : α → Option String) (x : α) :
    ∀ l : List α, (l ++ [x]).findSome? f =
      match l.findSome? f with
      | some v => some v
      | none => f x := by
  intro l
  induction l with
  | nil =>
    cases hf : f x <;> simp [List.findSome?, hf]
  | cons y l ih =>
    cases hf : f y <;> simp [List.findSome?, hf, ih]

theorem lastHit_cons {α : Type} (f : α → Option String) (x : α) (l : List α) :
    lastHit f (x :: l) =
      match lastHit f l with
      | some v => some v
      | none => f x := by
  simp only [lastHit, List.reverse_cons]
  exact findSome?_append_single f x l.reverse

theorem hmGet_hmOfList (k : String) (l : List (String × String)) :
    ∀ m : HMap, hmGet (l.foldl (fun m p => hmInsert m p.1 p.2) m) k =
      match lastBind l k with
      | some v => some v
      | none => hmGet m k := by
  induction l with
  | nil => intro m; simp [lastBind, lastHit]
  | cons p l ih =>
    intro m
    rw [List.foldl_cons, ih (hmInsert m p.1 p.2)]
    have hc : lastBind (p :: l) k =
        match lastBind l k with
        | some v => some v
        | none => if p.1 = k then some p.2 else none := lastHit_cons _ p l
    rw [hc, hmGet_hmInsert]
    cases hl : lastBind l k <;> by_cases hp : p.1 = k <;> simp [hp]

theorem lastBind_eq_none (l : List (String × String)) (k : String)
    (h : ∀ p ∈ l, p.1 ≠ k) : lastBind l k = none := by
  induction l with
  | nil => simp [lastBind, lastHit]
  | cons p l ih =>
    have hc := lastHit_cons (fun p : String × String =>
      if p.1 = k then some p.2 else none) p l
    rw [lastBind, hc]
    have h1 : lastBind l k = none := ih (fun q hq => h q (List.mem_cons_of_mem p hq))
    rw [lastBind] at h1
    rw [h1]
    simp [h p (List.mem_cons_self p l)]

theorem match_option_collapse (o : Option String) :
    (match o with
      | some v => some v
      | none => none) = o := by
  cases o <;> rfl

theorem lastBind_cons (p : String × String) (l : List (String × String)) (k : String) :
    lastBind (p :: l) k =
      match lastBind l k with
      | some v => some v
      | none => if p.1 = k then some p.2 else none := by
  exact lastHit_cons (fun q : String × String =>
    if q.1 = k then some q.2 else none) p l

theorem lastBind_seed (gs : List ChoiceGroup) (c : ChoiceGroup)
    (hnodup : (gs.map ChoiceGroup.id).Nodup) (hc : c ∈ gs) :
    lastBind ((gs.map (fun c => (c.id, c.initial))).filter (fun p => p.2 ≠ "")) c.id =
      if c.initial = "" then none else some c.initial := by
  induction gs with
  | nil => cases hc
  | cons d gs ih =>
    have hnd : (gs.map ChoiceGroup.id).Nodup := (List.nodup_cons.mp hnodup).2
    have hdid : d.id ∉ gs.map ChoiceGroup.id := (List.nodup_cons.mp hnodup).1
    rcases List.mem_cons.mp hc with hcd | hcg
    · subst hcd
      have htail : ∀ p ∈ (gs.map (fun c => (c.id, c.initial))).filter
          (fun p => p.2 ≠ ""), p.1 ≠ c.id := by
        intro p hp
        have hp' := List.mem_of_mem_filter hp
        obtain ⟨e, he, hpe⟩ := List.mem_map.mp hp'
        intro hk
        exact hdid (by
          subst hpe
          exact hk ▸ List.mem_map.mpr ⟨e, he, rfl⟩)
      by_cases hinit : c.initial = ""
      · simp only [List.map_cons]
        rw [List.filter_cons_of_neg (by simp [hinit])]
        rw [lastBind_eq_none _ _ htail]
        simp [hinit]
      · simp only [List.map_cons]
        rw [List.filter_cons_of_pos (by simp [hinit])]
        rw [lastBind_cons, lastBind_eq_none _ _ htail]
        simp [hinit]
    · have hne : d.id ≠ c.id := by
        intro h
        exact hdid (h ▸ List.mem_map.mpr ⟨c, hcg, rfl⟩)
      by_cases hinit : d.initial = ""
      · simp only [List.map_cons]
        rw [List.filter_cons_of_neg (by simp [hinit])]
        exact ih hnd hcg
      · simp only [List.map_cons]
        rw [List.filter_cons_of_pos (by simp [hinit])]
        rw [lastBind_cons, ih hnd hcg]
        by_cases hci : c.initial = "" <;> simp [hci, hne]

theorem hmGet_active_choices_of (gs : List ChoiceGroup) (c : ChoiceGroup)
    (hnodup : (gs.map ChoiceGroup.id).Nodup) (hc : c ∈ gs) :
    hmGet (active_choices_of (some gs)) c.id =
      if c.initial = "" then none else some c.initial := by
  rw [active_choices_of, hmOfList]
  rw [hmGet_hmOfList c.id _ []]
  rw [show (Option.getD (some gs) [] : List ChoiceGroup) = gs from rfl]
  rw [lastBind_seed gs c hnodup hc]
  by_cases hinit : c.initial = "" <;> simp [hinit, hmGet]

/-! ### Choice-application lemmas -/

theorem applyChoice_options (args : AccessDialogArgs) (i j : Nat) :
    (applyChoice args i j).options = args.options := by
  cases h1 : (args.options.choices.getD [])[i]? with
  | none => simp [applyChoice, h1]
  | some choice =>
    cases h2 : choice.options[j]? with
    | none => simp [applyChoice, h1, h2]
    | some opt => simp [applyChoice, h1, h2]

theorem applyChoice_tx (args : AccessDialogArgs) (i j : Nat) :
    (applyChoice args i j).tx = args.tx := by
  cases h1 : (args.options.choices.getD [])[i]? with
  | none => simp [applyChoice, h1]
  | some choice =>
    cases h2 : choice.options[j]? with
    | none => simp [applyChoice, h1, h2]
    | some opt => simp [applyChoice, h1, h2]

theorem applyChoices_options (ms : List (Nat × Nat)) :
    ∀ args : AccessDialogArgs, (applyChoices args ms).options = args.options := by
  induction ms with
  | nil => intro args; rfl
  | cons m ms ih =>
    intro args
    rw [applyChoices, List.foldl_cons]
    rw [show List.foldl (fun a m => applyChoice a m.1 m.2)
      (applyChoice args m.1 m.2) ms = applyChoices (applyChoice args m.1 m.2) ms from rfl]
    rw [ih, applyChoice_options]

theorem applyChoices_tx (ms : List (Nat × Nat)) :
    ∀ args : AccessDialogArgs, (applyChoices args ms).tx = args.tx := by
  induction ms with
  | nil => intro args; rfl
  | cons m ms ih =>
    intro args
    rw [applyChoices, List.foldl_cons]
    rw [show List.foldl (fun a m => applyChoice a m.1 m.2)
      (applyChoice args m.1 m.2) ms = applyChoices (applyChoice args m.1 m.2) ms from rfl]
    rw [ih, applyChoice_tx]

theorem hmGet_applyChoice (args : AccessDialogArgs) (i j : Nat) (g : String) :
    hmGet (applyChoice args i j).active_choices g =
      match selTarget (args.options.choices.getD []) g (i, j) with
      | some v => some v
      | none => hmGet args.active_choices g := by
  cases h1 : (args.options.choices.getD [])[i]? with
  | none => simp [applyChoice, selTarget, h1]
  | some choice =>
    cases h2 : choice.options[j]? with
    | none =>
      by_cases hid : choice.id = g <;> simp [applyChoice, selTarget, h1, h2, hid]
    | some opt =>
      by_cases hid : choice.id = g <;>
        simp [applyChoice, selTarget, h1, h2, hid, hmGet_hmInsert]

theorem hmGet_applyChoices (ms : List (Nat × Nat)) :
    ∀ (args : AccessDialogArgs) (g : String),
      hmGet (applyChoices args ms).active_choices g =
        match lastSel (args.options.choices.getD []) ms g with
        | some v => some v
        | none => hmGet args.active_choices g := by
  induction ms with
  | nil => intro args g; simp [applyChoices, lastSel, lastHit]
  | cons m ms ih =>
    intro args g
    rw [applyChoices, List.foldl_cons]
    rw [show List.foldl (fun a m => applyChoice a m.1 m.2)
      (applyChoice args m.1 m.2) ms = applyChoices (applyChoice args m.1 m.2) ms from rfl]
    rw [ih (applyChoice args m.1 m.2) g]
    rw [applyChoice_options]
    have hcons : lastSel (args.options.choices.getD []) (m :: ms) g =
        match lastSel (args.options.choices.getD []) ms g with
        | some v => some v
        | none => selTarget (args.options.choices.getD []) g m :=
      lastHit_cons _ m ms
    rw [hcons, hmGet_applyChoice]
    cases hl : lastSel (args.options.choices.getD []) ms g <;>
      cases ht : selTarget (args.options.choices.getD []) g (m.1, m.2) <;>
      simp_all

/-! ### Step lemmas for the control loop -/

theorem update_msg_Choice_eq (args : AccessDialogArgs) (i j : Nat) :
    update_msg { access_args := some args } (Msg.Choice i j) =
      some ({ access_args := some (applyChoice args i j) }, []) := by
  cases h1 : (args.options.choices.getD [])[i]? with
  | none => simp [update_msg, applyChoice, h1]
  | some choice =>
    cases h2 : choice.options[j]? with
    | none => simp [update_msg, applyChoice, h1, h2]
    | some opt => simp [update_msg, applyChoice, h1, h2]

theorem applyChoices_cons (args : AccessDialogArgs) (m : Nat × Nat)
    (ms : List (Nat × Nat)) :
    applyChoices args (m :: ms) = applyChoices (applyChoice args m.1 m.2) ms := rfl

theorem runSteps_append (s1 s2 : List Step) :
    ∀ p : CosmicPortal,
      runSteps p (s1 ++ s2) =
        match runSteps p s1 with
        | none => none
        | some pr => (runSteps pr.1 s2).map (fun x => (x.1, pr.2 ++ x.2)) := by
  induction s1 with
  | nil =>
    intro p
    simp [runSteps]
  | cons st s1 ih =>
    intro p
    cases st with
    | submit a =>
      rw [List.cons_append, runSteps, runSteps, ih]
      cases h : runSteps (update_args p a).1 s1 with
      | none => simp
      | some pr =>
        simp only [Option.map_some]
        cases h2 : runSteps pr.1 s2 with
        | none => simp [h2]
        | some x => simp [h2, List.append_assoc]
    | ui m =>
      rw [List.cons_append, runSteps, runSteps]
      cases hm : update_msg p m with
      | none => rfl
      | some pr =>
        simp only [ih]
        cases h : runSteps pr.1 s1 with
        | none => simp
        | some pr' =>
          simp only [Option.map_some]
          cases h2 : runSteps pr'.1 s2 with
          | none => simp [h2]
          | some x => simp [h2, List.append_assoc]

theorem runSteps_choices (ms : List (Nat × Nat)) :
    ∀ args : AccessDialogArgs,
      runSteps { access_args := some args }
        (ms.map (fun s => Step.ui (Msg.Choice s.1 s.2))) =
        some ({ access_args := some (applyChoices args ms) }, []) := by
  induction ms with
  | nil => intro args; simp [runSteps, applyChoices]
  | cons m ms ih =>
    intro args
    rw [List.map_cons, runSteps, update_msg_Choice_eq]
    simp [ih, applyChoices_cons]

/-! ### Counting sends per sink -/

theorem update_args_state (p : CosmicPortal) (a : AccessDialogArgs) :
    (update_args p a).1 = { access_args := some a } := by
  cases h : p.access_args <;> simp [update_args, h]

theorem update_args_sends_count (p : CosmicPortal) (a : AccessDialogArgs) (t : Nat) :
    countSends t (update_args p a).2 = currentTxCount t p := by
  cases h : p.access_args with
  | none => simp [update_args, h, countSends, currentTxCount]
  | some old =>
    by_cases ht : old.tx = t <;>
      simp [update_args, h, countSends, currentTxCount, ht]

theorem update_msg_sends_count (p : CosmicPortal) (m : Msg)
    (pr : CosmicPortal × List SinkSend) (t : Nat)
    (h : update_msg p m = some pr) :
    countSends t pr.2 + currentTxCount t pr.1 = currentTxCount t p := by
  cases m with
  | Allow =>
    cases hp : p.access_args with
    | none => rw [update_msg] at h; rw [hp] at h; cases h
    | some args =>
      rw [update_msg] at h; rw [hp] at h
      cases h
      by_cases ht : args.tx = t <;>
        simp [countSends, currentTxCount, hp, ht]
  | Cancel =>
    cases hp : p.access_args with
    | none => rw [update_msg] at h; rw [hp] at h; cases h
    | some args =>
      rw [update_msg] at h; rw [hp] at h
      cases h
      by_cases ht : args.tx = t <;>
        simp [countSends, currentTxCount, hp, ht]
  | Choice i j =>
    cases hp : p.access_args with
    | none => rw [update_msg] at h; rw [hp] at h; cases h
    | some args =>
      have hb : p = { access_args := some args } := by
        cases p; simp at hp; rw [hp]
      rw [hb, update_msg_Choice_eq] at h
      cases h
      have htx := applyChoice_tx args i j
      by_cases ht : args.tx = t <;>
        simp [countSends, currentTxCount, hp, ht, htx]

theorem runSteps_countSends (t : Nat) (steps : List Step) :
    ∀ (p p' : CosmicPortal) (sends : List SinkSend),
      runSteps p steps = some (p', sends) →
      countSends t sends + currentTxCount t p' =
        submitCount t steps + currentTxCount t p := by
  induction steps with
  | nil =>
    intro p p' sends h
    rw [runSteps] at h
    cases h
    simp [countSends, submitCount]
  | cons st steps ih =>
    intro p p' sends h
    cases st with
    | submit a =>
      rw [runSteps] at h
      cases hrest : runSteps (update_args p a).1 steps with
      | none => rw [hrest] at h; cases h
      | some x =>
        rw [hrest] at h
        cases h
        have hih := ih (update_args p a).1 x.1 x.2 (by rw [hrest])
        rw [update_args_state] at hih
        have hcnt : countSends t ((update_args p a).2 ++ x.2) =
            countSends t (update_args p a).2 + countSends t x.2 := by
          simp [countSends, List.filter_append]
        rw [hcnt, update_args_sends_count]
        have hsc : submitCount t (Step.submit a :: steps) =
            (if a.tx = t then 1 else 0) + submitCount t steps := by
          by_cases ht : a.tx = t <;> simp [submitCount, ht, Nat.add_comm]
        rw [hsc]
        have hcur : currentTxCount t { access_args := some a } =
            (if a.tx = t then 1 else 0) := by
          simp [currentTxCount]
        rw [hcur] at hih
        omega
    | ui m =>
      rw [runSteps] at h
      cases hm : update_msg p m with
      | none => rw [hm] at h; cases h
      | some pr =>
        rw [hm] at h
        simp only [] at h
        cases hrest : runSteps pr.1 steps with
        | none => rw [hrest] at h; cases h
        | some x =>
          rw [hrest] at h
          cases h
          have hih := ih pr.1 x.1 x.2 (by rw [hrest])
          have hstep := update_msg_sends_count p m pr t hm
          have hcnt : countSends t (pr.2 ++ x.2) =
              countSends t pr.2 + countSends t x.2 := by
            simp [countSends, List.filter_append]
          rw [hcnt]
          have hsc : submitCount t (Step.ui m :: steps) = submitCount t steps := by
            simp [submitCount]
          rw [hsc]
          omega

/-! ### Submission sequences -/

theorem runSubmits_from_current (rest : List AccessDialogArgs) :
    ∀ b : AccessDialogArgs,
      runSubmits { access_args := some b } rest =
        ({ access_args := (b :: rest).getLast? },
          (b :: rest).dropLast.map (fun r => (r.tx, PortalResponse.Cancelled))) := by
  induction rest with
  | nil =>
    intro b
    simp [runSubmits]
  | cons c rest ih =>
    intro b
    rw [runSubmits]
    simp only [update_args]
    rw [ih c]
    have hlast : (b :: c :: rest).getLast? = (c :: rest).getLast? := by
      simp [List.getLast?_cons_cons]
    have hdrop : (b :: c :: rest).dropLast = b :: (c :: rest).dropLast := by
      simp [List.dropLast_cons₂]
    rw [hlast, hdrop]
    simp

/-! ### Selection-state invariant -/

theorem hmKeys_hmOfList_sub (l : List (String × String)) :
    ∀ (m : HMap) (k : String),
      k ∈ hmKeys (l.foldl (fun m p => hmInsert m p.1 p.2) m) →
      k ∈ hmKeys m ∨ k ∈ l.map Prod.fst := by
  induction l with
  | nil => intro m k hk; exact Or.inl hk
  | cons p l ih =>
    intro m k hk
    rw [List.foldl_cons] at hk
    rcases ih (hmInsert m p.1 p.2) k hk with h | h
    · rcases hmKeys_hmInsert m p.1 p.2 k h with h' | h'
      · exact Or.inr (by simp [h'])
      · exact Or.inl h'
    · exact Or.inr (by rw [List.map_cons]; exact List.mem_cons_of_mem _ h)

theorem active_choices_of_keys (gs : List ChoiceGroup) :
    ∀ k ∈ hmKeys (active_choices_of (some gs)), k ∈ gs.map ChoiceGroup.id := by
  intro k hk
  rw [active_choices_of, hmOfList] at hk
  rcases hmKeys_hmOfList_sub _ [] k hk with h | h
  · cases h
  · obtain ⟨p, hp, hpk⟩ := List.mem_map.mp h
    have hp' := List.mem_of_mem_filter hp
    obtain ⟨c, hc, hcp⟩ := List.mem_map.mp hp'
    subst hcp
    subst hpk
    exact List.mem_map.mpr ⟨c, hc, rfl⟩

theorem selInv_mk (handle app_id parent_window title subtitle body : String)
    (options : AccessDialogOptions) (tx : Nat) :
    selInv (mkAccessDialogArgs handle app_id parent_window title subtitle body
      options tx) := by
  intro k hk
  rw [mkAccessDialogArgs] at hk
  simp only [choiceIds, mkAccessDialogArgs]
  cases hoc : options.choices with
  | none =>
    rw [hoc] at hk
    simp [active_choices_of, hmOfList, hmKeys] at hk
  | some gs =>
    rw [hoc] at hk
    simpa using active_choices_of_keys gs k hk

theorem selInv_applyChoice (args : AccessDialogArgs) (i j : Nat)
    (h : selInv args) : selInv (applyChoice args i j) := by
  cases h1 : (args.options.choices.getD [])[i]? with
  | none =>
    have he : applyChoice args i j = args := by simp [applyChoice, h1]
    rw [he]; exact h
  | some choice =>
    cases h2 : choice.options[j]? with
    | none =>
      have he : applyChoice args i j = args := by simp [applyChoice, h1, h2]
      rw [he]; exact h
    | some opt =>
      have he : applyChoice args i j = { args with
          active_choices := hmInsert args.active_choices choice.id opt.1 } := by
        simp [applyChoice, h1, h2]
      rw [he]
      intro k hk
      have hk' : k ∈ hmKeys (hmInsert args.active_choices choice.id opt.1) := hk
      simp only [choiceIds]
      rcases hmKeys_hmInsert args.active_choices choice.id opt.1 k hk' with h' | h'
      · subst h'
        have hcm : choice ∈ args.options.choices.getD [] := List.getElem?_mem h1
        exact List.mem_map.mpr ⟨choice, hcm, rfl⟩
      · exact h k h'

theorem update_msg_portalInv (p : CosmicPortal) (m : Msg)
    (pr : CosmicPortal × List SinkSend)
    (h : update_msg p m = some pr) (hinv : portalInv p) : portalInv pr.1 := by
  cases m with
  | Allow =>
    cases hp : p.access_args with
    | none => rw [update_msg, hp] at h; cases h
    | some args =>
      rw [update_msg, hp] at h
      cases h
      intro a ha
      cases ha
  | Cancel =>
    cases hp : p.access_args with
    | none => rw [update_msg, hp] at h; cases h
    | some args =>
      rw [update_msg, hp] at h
      cases h
      intro a ha
      cases ha
  | Choice i j =>
    cases hp : p.access_args with
    | none => rw [update_msg, hp] at h; cases h
    | some args =>
      have hb : p = { access_args := some args } := by
        cases p; simp at hp; rw [hp]
      rw [hb, update_msg_Choice_eq] at h
      cases h
      intro a ha
      simp at ha
      subst ha
      exact selInv_applyChoice args i j (hinv args (by rw [hp]))

theorem runSteps_portalInv (steps : List Step) :
    ∀ (p p' : CosmicPortal) (sends : List SinkSend),
      runSteps p steps = some (p', sends) → portalInv p →
      (∀ a, Step.submit a ∈ steps → selInv a) → portalInv p' := by
  induction steps with
  | nil =>
    intro p p' sends h hinv _
    rw [runSteps] at h
    cases h
    exact hinv
  | cons st steps ih =>
    intro p p' sends h hinv hsub
    cases st with
    | submit a =>
      rw [runSteps] at h
      cases hrest : runSteps (update_args p a).1 steps with
      | none => rw [hrest] at h; cases h
      | some x =>
        rw [hrest] at h
        cases h
        refine ih (update_args p a).1 x.1 x.2 (by rw [hrest]) ?_ ?_
        · rw [update_args_state]
          intro b hb
          simp at hb
          subst hb
          exact hsub _ (List.mem_cons_self _ _)
        · intro b hb
          exact hsub b (List.mem_cons_of_mem _ hb)
    | ui m =>
      rw [runSteps] at h
      cases hm : update_msg p m with
      | none => rw [hm] at h; cases h
      | some pr =>
        rw [hm] at h
        simp only [] at h
        cases hrest : runSteps pr.1 steps with
        | none => rw [hrest] at h; cases h
        | some x =>
          rw [hrest] at h
          cases h
          refine ih pr.1 x.1 x.2 (by rw [hrest])
            (update_msg_portalInv p m pr hm hinv) ?_
          intro b hb
          exact hsub b (List.mem_cons_of_mem _ hb)

/-! ### Send fates never feed back -/

theorem runStepsEnv_eq (alive : Nat → Bool) (steps : List Step) :
    ∀ p : CosmicPortal,
      runStepsEnv alive p steps =
        (runSteps p steps).map (fun x => (x.1, fateSends alive x.2)) := by
  induction steps with
  | nil => intro p; simp [runStepsEnv, runSteps, fateSends]
  | cons st steps ih =>
    intro p
    cases st with
    | submit a =>
      rw [runStepsEnv, runSteps, ih]
      cases h : runSteps (update_args p a).1 steps with
      | none => simp
      | some x => simp [fateSends]
    | ui m =>
      rw [runStepsEnv, runSteps]
      cases hm : update_msg p m with
      | none => rfl
      | some pr =>
        simp only [ih]
        cases h : runSteps pr.1 steps with
        | none => simp
        | some x => simp [fateSends]

/-! ### Claims -/

/-- Claim C1: for every sequence of submissions, each submitted request
except the last has its reply sink resolved with exactly one `Cancelled`
outcome before the next request is installed, and after each submission the
newly submitted request is the current request and remains pending: a
single `update_args` installs the new request and sends exactly one
`Cancelled` to the previously current request's sink (none when idle), and
a whole submission sequence from idle sends exactly the `Cancelled`
resolutions of all but the last request, in order, leaving the last request
current. -/
theorem claim_submit_supersedes_each_prior (p : CosmicPortal)
    (b a : AccessDialogArgs) (rest : List AccessDialogArgs) :
    ((update_args p b).1 = { access_args := some b } ∧
      (update_args p b).2 =
        (match p.access_args with
          | none => []
          | some old => [(old.tx, PortalResponse.Cancelled)])) ∧
    (runSubmits idlePortal (a :: rest)).1.access_args = (a :: rest).getLast? ∧
    (runSubmits idlePortal (a :: rest)).2 =
      (a :: rest).dropLast.map (fun r => (r.tx, PortalResponse.Cancelled)) := by
  have hseq : runSubmits idlePortal (a :: rest) =
      ({ access_args := (a :: rest).getLast? },
        (a :: rest).dropLast.map (fun r => (r.tx, PortalResponse.Cancelled))) := by
    rw [runSubmits]
    simp only [idlePortal, update_args]
    rw [runSubmits_from_current rest a]
    simp
  refine ⟨⟨update_args_state p b, ?_⟩, ?_, ?_⟩
  · cases hp : p.access_args <;> simp [update_args, hp]
  · rw [hseq]
  · rw [hseq]

/-- Claim C2: after submitting a request whose choice set is `gs` (with
distinct group ids) and applying an arbitrary sequence of selections, the
`Allow` resolution delivers `Success` with the final selection map, in
which every group never effectively touched by a selection keeps its
non-empty initial selection (and is absent when that was empty), and every
touched group maps to the option id of the last selection applied to it. -/
theorem claim_allow_selection_mapping (args : AccessDialogArgs)
    (gs : List ChoiceGroup) (ms : List (Nat × Nat)) (c : ChoiceGroup)
    (hch : args.options.choices = some gs)
    (hac : args.active_choices = active_choices_of (some gs))
    (hnodup : (gs.map ChoiceGroup.id).Nodup) (hc : c ∈ gs) :
    runSteps idlePortal
      (Step.submit args ::
        ((ms.map fun s => Step.ui (Msg.Choice s.1 s.2)) ++ [Step.ui Msg.Allow])) =
      some (idlePortal,
        [(args.tx,
          PortalResponse.Success ⟨(applyChoices args ms).active_choices⟩)]) ∧
    hmGet (applyChoices args ms).active_choices c.id =
      (match lastSel gs ms c.id with
        | some v => some v
        | none => if c.initial = "" then none else some c.initial) := by
  constructor
  · rw [runSteps]
    simp only [idlePortal, update_args]
    rw [runSteps_append]
    rw [runSteps_choices ms args]
    have htx := applyChoices_tx ms args
    have hallow : runSteps { access_args := some (applyChoices args ms) }
        [Step.ui Msg.Allow] =
        some ({ access_args := none },
          [(args.tx,
            PortalResponse.Success ⟨(applyChoices args ms).active_choices⟩)]) := by
      rw [runSteps]
      simp [update_msg, runSteps, htx]
    simp only []
    rw [hallow]
    simp
  · rw [hmGet_applyChoices ms args c.id, hch]
    rw [show (Option.getD (some gs) [] : List ChoiceGroup) = gs from rfl]
    rw [hac, hmGet_active_choices_of gs c hnodup hc]

/-- Witness for C2: the spec's scenario — submit the `fmt` group with
initial `a`, select option index 1 (`b`), allow; the resolution is
`Success` with `{fmt ↦ b}`. -/
theorem claim_allow_selection_mapping_witness :
    (sampleRequest.options.choices = some [sampleGroup] ∧
      sampleRequest.active_choices = active_choices_of (some [sampleGroup]) ∧
      ([sampleGroup].map ChoiceGroup.id).Nodup ∧ sampleGroup ∈ [sampleGroup]) ∧
    runSteps idlePortal
      (Step.submit sampleRequest ::
        (([((0 : Nat), (1 : Nat))].map fun s => Step.ui (Msg.Choice s.1 s.2)) ++
          [Step.ui Msg.Allow])) =
      some (idlePortal, [(1, PortalResponse.Success ⟨[("fmt", "b")]⟩)]) ∧
    hmGet (applyChoices sampleRequest [(0, 1)]).active_choices "fmt" = some "b" := by
  have h := claim_allow_selection_mapping sampleRequest [sampleGroup] [(0, 1)]
    sampleGroup rfl rfl (by decide) (by decide)
  refine ⟨⟨rfl, rfl, by decide, by decide⟩, ?_, ?_⟩
  · rw [h.1]; decide
  · exact h.2.trans (by decide)

/-- Claim C3: `Allow` and `Cancel` with no current request panic (embedded
as `none`), never a silent no-op; with a current request installed they
never hit that failure. -/
theorem claim_allow_cancel_require_request (args : AccessDialogArgs) :
    update_msg idlePortal Msg.Allow = none ∧
    update_msg idlePortal Msg.Cancel = none ∧
    (update_msg { access_args := some args } Msg.Allow).isSome = true ∧
    (update_msg { access_args := some args } Msg.Cancel).isSome = true := by
  refine ⟨rfl, rfl, ?_, ?_⟩ <;> simp [update_msg]

/-- Claim C4: a `Choice(i, j)` with `i` out of range of the choice-group
list, or `j` out of range of group `i`'s options, leaves the whole request
(including the selection state) unchanged, does not panic, and attempts no
send on the reply sink. -/
theorem claim_out_of_range_choice_noop (args : AccessDialogArgs) (i j : Nat)
    (h : (args.options.choices.getD [])[i]? = none ∨
      ∃ choice, (args.options.choices.getD [])[i]? = some choice ∧
        choice.options[j]? = none) :
    update_msg { access_args := some args } (Msg.Choice i j) =
      some ({ access_args := some args }, []) := by
  rcases h with h1 | ⟨choice, h1, h2⟩
  · simp [update_msg, h1]
  · simp [update_msg, h1, h2]

/-- Witness for C4: group index 5 is out of range of `sampleRequest`'s one
choice group, so the message is a silent no-op. -/
theorem claim_out_of_range_choice_noop_witness :
    ((sampleRequest.options.choices.getD [])[(5 : Nat)]? = none ∨
      ∃ choice, (sampleRequest.options.choices.getD [])[(5 : Nat)]? = some choice ∧
        choice.options[(0 : Nat)]? = none) ∧
    update_msg { access_args := some sampleRequest } (Msg.Choice 5 0) =
      some ({ access_args := some sampleRequest }, []) :=
  ⟨Or.inl (by decide),
    claim_out_of_range_choice_noop sampleRequest 5 0 (Or.inl (by decide))⟩

/-- Claim C5: along any panic-free run from idle, the number of sends
attempted on sink `t` plus one pending slot for the final current request
equals the number of submissions carrying `t`; hence a request with a
unique sink is resolved at most once, and exactly once as soon as it is no
longer current — no double resolution and no orphaned sink. -/
theorem claim_sink_resolved_exactly_once (steps : List Step)
    (p' : CosmicPortal) (sends : List SinkSend) (t : Nat)
    (h : runSteps idlePortal steps = some (p', sends)) :
    countSends t sends + currentTxCount t p' = submitCount t steps ∧
    (submitCount t steps = 1 →
      countSends t sends ≤ 1 ∧
        (currentTxCount t p' = 0 → countSends t sends = 1)) := by
  have hmain := runSteps_countSends t steps idlePortal p' sends h
  have hidle : currentTxCount t idlePortal = 0 := rfl
  rw [hidle] at hmain
  constructor
  · omega
  · intro h1
    omega

/-- Witness for C5: submit request 1, supersede it with request 2, allow;
sink 1 is resolved exactly once (`Cancelled`), sink 2 exactly once
(`Success`). -/
theorem claim_sink_resolved_exactly_once_witness :
    runSteps idlePortal sampleSteps = some (idlePortal, sampleSends) ∧
    (countSends 1 sampleSends + currentTxCount 1 idlePortal =
        submitCount 1 sampleSteps ∧
      (submitCount 1 sampleSteps = 1 →
        countSends 1 sampleSends ≤ 1 ∧
          (currentTxCount 1 idlePortal = 0 → countSends 1 sampleSends = 1))) :=
  ⟨by decide,
    claim_sink_resolved_exactly_once sampleSteps idlePortal sampleSends 1 (by decide)⟩

/-- Counterexample for C6: when the reply channel is closed without a
response (`rx.recv()` yields `None`), `access_dialog` returns `Cancelled`
— one of the ordinary outcomes — not the distinct no-response error
(`Other`) the claim requires. -/
theorem claim_no_response_error_counterexample :
    access_dialog_reply none = PortalResponse.Cancelled ∧
    PortalResponse.Cancelled ≠ (PortalResponse.Other : PortalResponse AccessDialogResult) :=
  ⟨rfl, by decide⟩

/-- Claim C6 (amended): if the arbiter is torn down before resolving a
pending request, the caller of `access_dialog` receives `Cancelled` —
indistinguishable from an explicit cancel — while a response sent on the
channel is returned unchanged. -/
theorem claim_no_response_cancelled (res : PortalResponse AccessDialogResult) :
    access_dialog_reply none = PortalResponse.Cancelled ∧
    access_dialog_reply (some res) = res :=
  ⟨rfl, rfl⟩

/-- Claim C7: the keys of a request's selection state are always among the
group ids of its choice set: the invariant holds of every request built by
`access_dialog`, and along any panic-free run from idle in which every
submitted request satisfies it, it holds of the final current request. -/
theorem claim_selection_keys_invariant
    (handle app_id parent_window title subtitle body : String)
    (options : AccessDialogOptions) (tx : Nat) (steps : List Step)
    (p' : CosmicPortal) (sends : List SinkSend)
    (hrun : runSteps idlePortal steps = some (p', sends))
    (hsub : ∀ a, Step.submit a ∈ steps → selInv a) :
    selInv (mkAccessDialogArgs handle app_id parent_window title subtitle body
      options tx) ∧
    portalInv p' := by
  refine ⟨selInv_mk handle app_id parent_window title subtitle body options tx, ?_⟩
  refine runSteps_portalInv steps idlePortal p' sends hrun ?_ hsub
  intro a ha
  simp [idlePortal] at ha

/-- Witness for C7: the invariant holds along the concrete run
`sampleSteps` and of a concretely built request. -/
theorem claim_selection_keys_invariant_witness :
    (runSteps idlePortal sampleSteps = some (idlePortal, sampleSends) ∧
      (∀ a, Step.submit a ∈ sampleSteps → selInv a)) ∧
    (selInv (mkAccessDialogArgs "/req/1" "com.example.app" "" "Title" "Subtitle"
        "Body" sampleOptions 1) ∧
      portalInv idlePortal) := by
  have hs : ∀ a, Step.submit a ∈ sampleSteps → selInv a := by
    intro a ha
    simp [sampleSteps] at ha
    rcases ha with h | h <;> subst h
    · exact (by decide :
        ∀ k ∈ hmKeys sampleRequest.active_choices, k ∈ choiceIds sampleRequest)
    · exact (by decide :
        ∀ k ∈ hmKeys sampleRequest2.active_choices, k ∈ choiceIds sampleRequest2)
  exact ⟨⟨by decide, hs⟩,
    claim_selection_keys_invariant "/req/1" "com.example.app" "" "Title"
      "Subtitle" "Body" sampleOptions 1 sampleSteps idlePortal sampleSends
      (by decide) hs⟩

/-- Claim C8: the selection state is seeded only from groups with a
non-empty initial selection; a group with an empty initial selection gets
no entry, and if never effectively touched by a selection it is also
absent from the map delivered on `Allow`. -/
theorem claim_empty_initial_not_seeded (gs : List ChoiceGroup)
    (args : AccessDialogArgs) (ms : List (Nat × Nat)) (c : ChoiceGroup)
    (hch : args.options.choices = some gs)
    (hac : args.active_choices = active_choices_of (some gs))
    (hnodup : (gs.map ChoiceGroup.id).Nodup) (hc : c ∈ gs)
    (hempty : c.initial = "")
    (huntouched : lastSel gs ms c.id = none) :
    (∀ k ∈ hmKeys (active_choices_of (some gs)),
      ∃ d ∈ gs, d.id = k ∧ d.initial ≠ "") ∧
    hmGet (active_choices_of (some gs)) c.id = none ∧
    hmGet (applyChoices args ms).active_choices c.id = none := by
  refine ⟨?_, ?_, ?_⟩
  · intro k hk
    rw [active_choices_of, hmOfList] at hk
    rcases hmKeys_hmOfList_sub _ [] k hk with h | h
    · cases h
    · obtain ⟨p, hp, hpk⟩ := List.mem_map.mp h
      have hpf := List.mem_filter.mp hp
      obtain ⟨d, hd, hdp⟩ := List.mem_map.mp hpf.1
      refine ⟨d, hd, ?_, ?_⟩
      · rw [← hpk, ← hdp]
      · have := hpf.2
        rw [← hdp] at this
        simpa using this
  · rw [hmGet_active_choices_of gs c hnodup hc, if_pos hempty]
  · rw [hmGet_applyChoices ms args c.id, hch]
    rw [show (Option.getD (some gs) [] : List ChoiceGroup) = gs from rfl]
    rw [huntouched, hac, hmGet_active_choices_of gs c hnodup hc, if_pos hempty]

/-- Witness for C8: the `color` group has an empty initial selection and
is untouched by the selection `(0, 1)` (which targets `fmt`), so it is
absent both at creation and from the final map. -/
theorem claim_empty_initial_not_seeded_witness :
    lastSel [sampleGroup, sampleGroupNoDefault] [(0, 1)] "color" = none ∧
    ((∀ k ∈ hmKeys (active_choices_of (some [sampleGroup, sampleGroupNoDefault])),
        ∃ d ∈ [sampleGroup, sampleGroupNoDefault], d.id = k ∧ d.initial ≠ "") ∧
      hmGet (active_choices_of (some [sampleGroup, sampleGroupNoDefault])) "color" =
        none ∧
      hmGet (applyChoices sampleRequestMixed [(0, 1)]).active_choices "color" =
        none) :=
  ⟨by decide,
    claim_empty_initial_not_seeded [sampleGroup, sampleGroupNoDefault]
      sampleRequestMixed [(0, 1)] sampleGroupNoDefault rfl rfl (by decide)
      (by decide) rfl (by decide)⟩

/-- Counterexample for C9: a reply-sink send that fails because the
receiving end has gone away emits no log record on the resolution paths —
the failure is ignored, but it is not logged as the claim states. -/
theorem claim_send_failure_logged_counterexample :
    attemptSend false = SendFate.receiverGone ∧
    resolutionSendLog SendFate.receiverGone = [] :=
  ⟨rfl, rfl⟩

/-- Claim C9 (amended): whether a reply-sink send reaches its receiver
never feeds back into the arbiter — the failure is silently ignored (not
logged), not propagated, and not fatal: running in any environment of
per-sink receiver aliveness yields exactly the same states, the same
panic-freedom, and the same attempted sends as the environment-free run —
only the recorded fate of each send differs — and in particular the
resulting arbiter states are identical under any two environments, on
every resolution path. -/
theorem claim_send_failure_ignored (alive alive2 : Nat → Bool)
    (p : CosmicPortal) (steps : List Step) :
    runStepsEnv alive p steps =
      (runSteps p steps).map (fun x => (x.1, fateSends alive x.2)) ∧
    (runStepsEnv alive p steps).map (fun x => x.1) =
      (runStepsEnv alive2 p steps).map (fun x => x.1) := by
  refine ⟨runStepsEnv_eq alive steps p, ?_⟩
  rw [runStepsEnv_eq alive steps p, runStepsEnv_eq alive2 steps p]
  cases h : runSteps p steps <;> simp

/-- Claim C10: a `Choice(i, j)` while no request is current panics
(embedded as `none`) — unlike out-of-range indices with a current request,
which leave the request unchanged without panicking. -/
theorem claim_choice_without_request_panics (i j : Nat) (args : AccessDialogArgs)
    (h : (args.options.choices.getD [])[i]? = none) :
    update_msg idlePortal (Msg.Choice i j) = none ∧
    update_msg { access_args := some args } (Msg.Choice i j) =
      some ({ access_args := some args }, []) := by
  exact ⟨rfl, by simp [update_msg, h]⟩

/-- Witness for C10: group index 9 is out of range of `sampleRequest`'s
choice set. -/
theorem claim_choice_without_request_panics_witness :
    (sampleRequest.options.choices.getD [])[(9 : Nat)]? = none ∧
    (update_msg idlePortal (Msg.Choice 9 0) = none ∧
      update_msg { access_args := some sampleRequest } (Msg.Choice 9 0) =
        some ({ access_args := some sampleRequest }, [])) :=
  ⟨by decide, claim_choice_without_request_panics 9 0 sampleRequest (by decide)⟩
